import Mathlib

/-
Shallow embedding of the MITPQML teaching notebooks: the three-qubit Ising
model notebook (circuit, cost, SGD loop) and the Titanic Variational Quantum
Classifier notebook (data embedding, layer, circuitBuild, squareLoss,
accuracy, label encoding, Adam loop).  Machine floats are modelled by ℚ;
quantum gate applications are modelled by the trace of library gate calls a
circuit function emits, since the circuits only compose library primitives.
-/

/-! ## Ising notebook (src/unnamed/part_000) -/

/-- Number of wires of the Ising notebook's device:
`dev = qml.device("default.qubit", wires=3)`. -/
def isingWires : ℕ := 3

/-- A library gate call, as the notebook circuits emit them: `qml.Rot(phi,
theta, omega, wires=w)`, `qml.CNOT(wires=[c, t])`, `qml.BasisEmbedding(x,
wires=ws)`. -/
inductive Gate where
  | rot (phi theta omega : ℚ) (wire : ℕ)
  | cnot (control target : ℕ)
  | basisEmbed (x : List ℚ) (wires : List ℕ)

/-- The Ising notebook's `circuit(p1, p2)`: one `qml.Rot` on wire 1 from
`p1`, one on wire 2 from `p2`, returning the Pauli-Z expectation values of
the wires `range(3)`.  Modelled as the emitted gate trace together with the
list of measured wires. -/
def circuit (p1 p2 : ℕ → ℚ) : List Gate × List ℕ :=
  ([Gate.rot (p1 0) (p1 1) (p1 2) 1, Gate.rot (p2 0) (p2 1) (p2 2) 2],
   List.range 3)

/-- The Ising notebook's `cost`, written over the list `spins` of the three
Pauli-Z expectation values that `circuit` returns:
`energy = -(1 * spins[0] * spins[1]) - (-1 * spins[1] * spins[2])`. -/
def cost (spins : List ℚ) : ℚ :=
  -(1 * spins.getD 0 0 * spins.getD 1 0) - (-1 * spins.getD 1 0 * spins.getD 2 0)

/-- The Hamiltonian the notebook's markdown states, following the spec's
words: `H = - sum_<ij> J_ij sigma_i sigma_j` for a list `J` of
nearest-neighbour couplings and a list `s` of spins. -/
def hamiltonianEnergy (J s : List ℚ) : ℚ :=
  -((List.range J.length).map fun i => J.getD i 0 * s.getD i 0 * s.getD (i + 1) 0).sum

/-! ## VQC notebook (src/exercises/VQC.ipynb): device and circuits -/

/-- `n_qubits = 4`. -/
def nQubits : ℕ := 4

/-- `n_layers = 2`. -/
def nLayers : ℕ := 2

/-- Number of wires of the VQC notebook's device:
`dev = qml.device("default.qubit", wires = n_qubits)`. -/
def vqcWires : ℕ := nQubits

/-- `dataEmbedding(x)`: `qml.BasisEmbedding(x, wires=range(0, n_qubits))`. -/
def dataEmbedding (x : List ℚ) : List Gate :=
  [Gate.basisEmbed x (List.range nQubits)]

/-- `layer(W)`: a `qml.Rot` from row `W[i]` on each wire `i in
range(n_qubits)`, then `qml.CNOT` on `[i, i+1]` for `i in range(n_qubits-1)`,
then `qml.CNOT(wires=[n_qubits-1, 0])`. -/
def layer (W : ℕ → ℕ → ℚ) : List Gate :=
  ((List.range nQubits).map fun i => Gate.rot (W i 0) (W i 1) (W i 2) i)
    ++ ((List.range (nQubits - 1)).map fun i => Gate.cnot i (i + 1))
    ++ [Gate.cnot (nQubits - 1) 0]

/-- `circuitBuild(weights, x)`: `dataEmbedding(x)`, then `layer(W)` for each
`W in weights`, returning `qml.expval(qml.PauliZ(0))` (the measured wire is
0).  Modelled as the emitted gate trace together with the measured wire. -/
def circuitBuild (weights : List (ℕ → ℕ → ℚ)) (x : List ℚ) : List Gate × ℕ :=
  (dataEmbedding x ++ (weights.map layer).flatten, 0)

/-! ## VQC notebook: weights, optimizer step, training loops -/

/-- Shape of the nested weight lists: `a` layers, each of `b` rows of `c`
rotation angles. -/
def HasShape3 (w : List (List (List ℚ))) (a b c : ℕ) : Prop :=
  w.length = a ∧ ∀ m ∈ w, m.length = b ∧ ∀ r ∈ m, r.length = c

/-- `weights_init = 0.01 * npl.random.randn(n_layers, n_qubits, 3)`: a
`n_layers × n_qubits × 3` nested list scaled by `0.01`, with `g` standing for
the sampled standard-normal entries. -/
def weightsInit (g : ℕ → ℕ → ℕ → ℚ) : List (List (List ℚ)) :=
  (List.range nLayers).map fun i =>
    (List.range nQubits).map fun j =>
      (List.range 3).map fun k => (1 / 100 : ℚ) * g i j k

/-- The weight update performed by `opt.step(cost, weights, bias, ...)`.
Modelled from the library's contract: PennyLane's `AdamOptimizer.step`
updates every trainable entry elementwise from its current value and the
corresponding entry of the gradient array `grad weights`, which autograd
produces with the shape of `weights`; `upd` abstracts the per-entry Adam
rule. -/
def adamStep (upd : ℚ → ℚ → ℚ) (grad : List (List (List ℚ)) → List (List (List ℚ)))
    (w : List (List (List ℚ))) : List (List (List ℚ)) :=
  (w.zip (grad w)).map fun m =>
    (m.1.zip m.2).map fun r =>
      (r.1.zip r.2).map fun x => upd x.1 x.2

/-- State threaded through a notebook training loop: the trainable
parameters, the number of `opt.step` calls made so far, and the list of
logged cost/accuracy values. -/
structure TrainState (P : Type) where
  params : P
  optSteps : ℕ
  log : List ℚ

/-- The Ising notebook's optimisation loop: `for i in range(100):
opt.step(closure)`, logging `cost(p1n, p2n)` whenever `(i + 1) % 5 == 0`.
`f` is the optimizer step on the parameters, `c` the cost function. -/
def isingLoop {P : Type} (f : P → P) (c : P → ℚ) (s0 : TrainState P) :
    TrainState P :=
  (List.range 100).foldl (fun s i =>
    let p := f s.params
    if (i + 1) % 5 = 0 then ⟨p, s.optSteps + 1, s.log ++ [c p]⟩
    else ⟨p, s.optSteps + 1, s.log⟩) s0

/-- `n_it = 35`. -/
def nIt : ℕ := 35

/-- The VQC notebook's optimisation loop: `for it in range(n_it):` one
`opt.step` on the parameters (`f`) followed by the accuracy computation on
the updated parameters (`a`), which is logged/printed. -/
def vqcLoop {P : Type} (f : P → P) (a : P → ℚ) (s0 : TrainState P) :
    TrainState P :=
  (List.range nIt).foldl (fun s _ =>
    let p := f s.params
    ⟨p, s.optSteps + 1, s.log ++ [a p]⟩) s0

/-! ## VQC notebook: Titanic data preparation -/

/-- A row of `TitanicData/train.csv`, restricted to the columns the notebook
uses: `Pclass` (1, 2 or 3), `Sex`, `Age` (possibly missing), `Survived`. -/
structure Passenger where
  pclass : ℕ
  sex : String
  age : Option ℚ
  survived : Bool

/-- `train['Age'].fillna(train['Age'].median())`: the passenger's age with a
missing value replaced by the column median `median`. -/
def fillAge (median : ℚ) (p : Passenger) : ℚ :=
  p.age.getD median

/-- `train['is_child'] = train['Age'].map(lambda x: 1 if x < 12 else 0)`,
applied after the `fillna`. -/
def isChild (median : ℚ) (p : Passenger) : ℚ :=
  if fillAge median p < 12 then 1 else 0

/-- The `Pclass_1` dummy column from `pd.get_dummies` after
`train['Pclass'].astype(str)`: the indicator of `Pclass == 1`. -/
def pclassOne (p : Passenger) : ℚ :=
  if p.pclass = 1 then 1 else 0

/-- The `Pclass_2` dummy column: the indicator of `Pclass == 2`. -/
def pclassTwo (p : Passenger) : ℚ :=
  if p.pclass = 2 then 1 else 0

/-- The `Sex_female` dummy column: the indicator of `Sex == "female"`. -/
def sexFemale (p : Passenger) : ℚ :=
  if p.sex = "female" then 1 else 0

/-- A row of `train[model_vars]` with
`model_vars = ['is_child', 'Pclass_1', 'Pclass_2', 'Sex_female']`: the
feature vector the notebook feeds to `dataEmbedding`. -/
def modelFeatures (median : ℚ) (p : Passenger) : List ℚ :=
  [isChild median p, pclassOne p, pclassTwo p, sexFemale p]

/-- `pd.read_csv('TitanicData/train.csv')`, over an abstract file system
`fs`: the parsed rows when the file is present, and the library's
uncaught `FileNotFoundError` otherwise. -/
def readCsv (fs : String → Option (List Passenger)) (path : String) :
    Except String (List Passenger) :=
  match fs path with
  | some rows => Except.ok rows
  | none => Except.error ("FileNotFoundError: " ++ path)

/-- The notebook's data-loading and feature-preparation cells run in
sequence: read the CSV, then build the `model_vars` feature rows.  No cell
wraps the read in a try/except, so the error of a failed read is returned
unchanged. -/
def loadAndPrepare (fs : String → Option (List Passenger)) (median : ℚ) :
    Except String (List (List ℚ)) :=
  (readCsv fs "TitanicData/train.csv").map fun rows =>
    rows.map (modelFeatures median)

/-! ## VQC notebook: loss, accuracy, label encoding -/

/-- `squareLoss(labels, predictions)`: sum `(l - p)**2` over
`zip(labels, predictions)`, then divide by `len(labels)`.  The division
raises `ZeroDivisionError` when `labels` is empty, modelled as `none`. -/
def squareLoss (labels predictions : List ℚ) : Option ℚ :=
  let loss := (labels.zip predictions).foldl (fun acc lp => acc + (lp.1 - lp.2) ^ 2) 0
  if labels.length = 0 then none else some (loss / (labels.length : ℚ))

/-- `accuracy(labels, predictions)`: count the pairs of
`zip(labels, predictions)` with `abs(l - p) < 1e-5`, then divide by
`len(labels)`.  The division raises `ZeroDivisionError` when `labels` is
empty, modelled as `none`. -/
def accuracy (labels predictions : List ℚ) : Option ℚ :=
  let hits := (labels.zip predictions).foldl
    (fun acc lp => if |lp.1 - lp.2| < 1 / 100000 then acc + 1 else acc) (0 : ℚ)
  if labels.length = 0 then none else some (hits / (labels.length : ℚ))

/-- The label encoding of `Y_train = npl.array(y_train.values * 2 -
np.ones(len(y_train)), ...)`: `y ↦ y * 2 - 1` applied to each `Survived`
value. -/
def encodeLabel (y : ℚ) : ℚ :=
  y * 2 - 1

/-- The inverse map `Y ↦ (Y + 1) / 2` named by the claim. -/
def decodeLabel (z : ℚ) : ℚ :=
  (z + 1) / 2

/-- The `Survived` column as the CSV stores it: `1` for survived, `0`
otherwise. -/
def survivedVal (p : Passenger) : ℚ :=
  if p.survived then 1 else 0

/-- The encoded training labels: `encodeLabel` applied to every row's
`Survived` value. -/
def yTrain (rows : List Passenger) : List ℚ :=
  rows.map fun p => encodeLabel (survivedVal p)

/-! ## Helper lemmas -/

/-- Each application of `layer` emits exactly 8 gates, so the flattened
per-layer traces have length `8 *` the number of weight slices. -/
theorem flatten_layers_length (weights : List (ℕ → ℕ → ℚ)) :
    ((weights.map layer).flatten).length = 8 * weights.length := by
  induction weights with
  | nil => rfl
  | cons W t ih =>
    have h8 : (layer W).length = 8 := rfl
    simp only [List.map_cons, List.flatten_cons, List.length_append, ih, h8,
      List.length_cons]
    ring

/-- A fold whose body makes exactly one optimizer step per element performs
as many steps as the list has elements. -/
theorem foldl_optSteps {P : Type} (body : TrainState P → ℕ → TrainState P)
    (h : ∀ s i, (body s i).optSteps = s.optSteps + 1) :
    ∀ (l : List ℕ) (s : TrainState P),
      (l.foldl body s).optSteps = s.optSteps + l.length := by
  intro l
  induction l with
  | nil => intro s; simp
  | cons a t ih =>
    intro s
    simp only [List.foldl_cons, List.length_cons, ih, h]
    omega

/-- `weightsInit` builds a `nLayers × nQubits × 3` nested list. -/
theorem weightsInit_shape (g : ℕ → ℕ → ℕ → ℚ) :
    HasShape3 (weightsInit g) nLayers nQubits 3 := by
  refine ⟨by simp [weightsInit], ?_⟩
  intro m hm
  simp only [weightsInit, List.mem_map, List.mem_range] at hm
  obtain ⟨i, -, rfl⟩ := hm
  refine ⟨by simp, ?_⟩
  intro r hr
  simp only [List.mem_map, List.mem_range] at hr
  obtain ⟨j, -, rfl⟩ := hr
  simp

/-- One optimizer step preserves the weight shape whenever the gradient it
consumes has that shape. -/
theorem adamStep_shape (upd : ℚ → ℚ → ℚ)
    (grad : List (List (List ℚ)) → List (List (List ℚ)))
    (w : List (List (List ℚ))) (hw : HasShape3 w nLayers nQubits 3)
    (hg : HasShape3 (grad w) nLayers nQubits 3) :
    HasShape3 (adamStep upd grad w) nLayers nQubits 3 := by
  obtain ⟨hl, hmem⟩ := hw
  obtain ⟨gl, gmem⟩ := hg
  refine ⟨by simp [adamStep, hl, gl], ?_⟩
  intro m hm
  simp only [adamStep, List.mem_map] at hm
  obtain ⟨⟨x, y⟩, hxy, rfl⟩ := hm
  have hx := (List.of_mem_zip hxy).1
  have hy := (List.of_mem_zip hxy).2
  refine ⟨by simp [(hmem x hx).1, (gmem y hy).1], ?_⟩
  intro r hr
  simp only [List.mem_map] at hr
  obtain ⟨⟨u, v⟩, huv, rfl⟩ := hr
  have hu := (List.of_mem_zip huv).1
  have hv := (List.of_mem_zip huv).2
  simp [(hmem x hx).2 u hu, (gmem y hy).2 v hv]

/-- A left fold that adds `f` of each element equals the starting value plus
the sum of the mapped list. -/
theorem foldl_add_map (f : ℚ × ℚ → ℚ) :
    ∀ (l : List (ℚ × ℚ)) (c : ℚ),
      l.foldl (fun acc lp => acc + f lp) c = c + (l.map f).sum := by
  intro l
  induction l with
  | nil => intro c; simp
  | cons a t ih =>
    intro c
    simp only [List.foldl_cons, List.map_cons, List.sum_cons, ih]
    ring

/-- Summing `f` over the zip of two equal-length lists is summing `f` of the
entries at each index. -/
theorem zip_map_sum (f : ℚ → ℚ → ℚ) :
    ∀ (L P : List ℚ), L.length = P.length →
      ((L.zip P).map fun lp => f lp.1 lp.2).sum =
        ∑ i ∈ Finset.range L.length, f (L.getD i 0) (P.getD i 0) := by
  intro L
  induction L with
  | nil => intro P h; simp
  | cons a t ih =>
    intro P h
    cases P with
    | nil => simp at h
    | cons b q =>
      simp only [List.length_cons] at h
      simp only [List.zip_cons_cons, List.map_cons, List.sum_cons, List.length_cons]
      rw [Finset.sum_range_succ']
      simp only [List.getD_cons_succ, List.getD_cons_zero]
      rw [ih q (by omega)]
      ring

/-! ## Claims -/

/-- C1 (counterexample): the Ising notebook's `cost` at the spin
configuration `[1, -1, -1]` does not return `-2`. -/
theorem cost_spins_not_neg_two : ¬ cost [1, -1, -1] = -2 := by
  norm_num [cost]

/-- C1 (amended): at the spin configuration `[1, -1, -1]` the notebook's
`cost` returns `2`; the hand-computed energy of the markdown's Hamiltonian
`H = -Σ J_ij σ_i σ_j` with `J = [-1, 1]` at that configuration is `-2`; and
`cost` in fact computes the energy for the swapped couplings `J = [1, -1]`
at every spin configuration. -/
theorem cost_spins_energy_amended (s : List ℚ) :
    cost [1, -1, -1] = 2 ∧
    hamiltonianEnergy [-1, 1] [1, -1, -1] = -2 ∧
    cost s = hamiltonianEnergy [1, -1] s := by
  refine ⟨by norm_num [cost], by norm_num [hamiltonianEnergy, List.range_succ], ?_⟩
  simp [cost, hamiltonianEnergy, List.range_succ]
  ring

/-- C2: every circuit function emits the same fixed, linear gate sequence on
every input: `circuit` applies one `Rot` on wire 1 and one on wire 2 and
measures Pauli-Z of wires 0, 1, 2 in order; `layer` applies one `Rot` on
each of the 4 wires and then CNOTs on the pairs (0,1), (1,2), (2,3), (3,0)
in order; `circuitBuild` applies the data embedding, then one layer per
weight slice (8 gates each), and measures Pauli-Z of wire 0. -/
theorem circuit_fixed_gate_sequences (p1 p2 : ℕ → ℚ) (W : ℕ → ℕ → ℚ)
    (weights : List (ℕ → ℕ → ℚ)) (x : List ℚ) :
    circuit p1 p2 = ([Gate.rot (p1 0) (p1 1) (p1 2) 1,
        Gate.rot (p2 0) (p2 1) (p2 2) 2], [0, 1, 2]) ∧
    layer W = [Gate.rot (W 0 0) (W 0 1) (W 0 2) 0, Gate.rot (W 1 0) (W 1 1) (W 1 2) 1,
        Gate.rot (W 2 0) (W 2 1) (W 2 2) 2, Gate.rot (W 3 0) (W 3 1) (W 3 2) 3,
        Gate.cnot 0 1, Gate.cnot 1 2, Gate.cnot 2 3, Gate.cnot 3 0] ∧
    circuitBuild weights x =
      (Gate.basisEmbed x (List.range nQubits) :: (weights.map layer).flatten, 0) ∧
    (circuitBuild weights x).1.length = 1 + 8 * weights.length := by
  refine ⟨rfl, rfl, rfl, ?_⟩
  simp [circuitBuild, dataEmbedding, flatten_layers_length weights]
  omega

/-- C6: the Ising notebook's device has exactly 3 wires, the VQC notebook's
device has `n_qubits = 4` wires, and both wire counts are constants in the
range 3 to 4. -/
theorem device_wires_fixed :
    isingWires = 3 ∧ vqcWires = nQubits ∧ nQubits = 4 ∧
    3 ≤ isingWires ∧ isingWires ≤ 4 ∧ 3 ≤ vqcWires ∧ vqcWires ≤ 4 := by
  decide

/-- C3: both optimisation loops run for a fixed, small number of iterations
and then terminate: the Ising SGD loop makes exactly 100 optimizer steps and
the VQC Adam loop makes exactly `nIt = 35` optimizer steps, whatever the
optimizer step function and whatever cost or accuracy values are reached. -/
theorem optimizer_loops_fixed_iterations {P Q : Type} (f : P → P) (c : P → ℚ)
    (s : TrainState P) (g : Q → Q) (a : Q → ℚ) (t : TrainState Q) :
    (isingLoop f c s).optSteps = s.optSteps + 100 ∧
    nIt = 35 ∧
    (vqcLoop g a t).optSteps = t.optSteps + nIt := by
  refine ⟨?_, rfl, ?_⟩
  · unfold isingLoop
    rw [foldl_optSteps _ (fun s i => by dsimp only; split <;> rfl)]
    simp
  · unfold vqcLoop
    rw [foldl_optSteps _ (fun s i => rfl)]
    simp [nIt]

/-- C4: the trainable parameter tensor has shape `n_layers × n_qubits × 3 =
2 × 4 × 3` initially, and that shape is preserved by every optimizer step of
the training loop (`k` steps for any `k`), for any per-entry update rule and
any shape-preserving gradient. -/
theorem weights_shape_invariant (g : ℕ → ℕ → ℕ → ℚ) (upd : ℚ → ℚ → ℚ)
    (grad : List (List (List ℚ)) → List (List (List ℚ)))
    (hgrad : ∀ w, HasShape3 w nLayers nQubits 3 →
      HasShape3 (grad w) nLayers nQubits 3) (k : ℕ) :
    nLayers = 2 ∧ nQubits = 4 ∧
    HasShape3 ((adamStep upd grad)^[k] (weightsInit g)) nLayers nQubits 3 := by
  refine ⟨rfl, rfl, ?_⟩
  induction k with
  | zero => simpa using weightsInit_shape g
  | succ n ih =>
    rw [Function.iterate_succ_apply']
    exact adamStep_shape upd grad _ ih (hgrad _ ih)

/-- C4 witness: the shape invariant at the identity gradient, the identity
per-entry update and one optimizer step. -/
theorem weights_shape_invariant_witness :
    nLayers = 2 ∧ nQubits = 4 ∧
    HasShape3 ((adamStep (fun x _ => x) id)^[1] (weightsInit fun _ _ _ => 0))
      nLayers nQubits 3 :=
  weights_shape_invariant (fun _ _ _ => 0) (fun x _ => x) id (fun _ h => h) 1

/-- C5: every feature row the notebook feeds to `dataEmbedding` is a
length-4 vector over the columns `['is_child', 'Pclass_1', 'Pclass_2',
'Sex_female']`, each entry is 0 or 1, and `is_child` is 1 exactly when the
filled-in age is strictly less than 12 and 0 otherwise. -/
theorem model_features_boolean (median : ℚ) (p : Passenger) :
    (modelFeatures median p).length = 4 ∧
    (∀ v ∈ modelFeatures median p, v = 0 ∨ v = 1) ∧
    (isChild median p = 1 ↔ fillAge median p < 12) ∧
    (isChild median p = 0 ↔ ¬ fillAge median p < 12) ∧
    dataEmbedding (modelFeatures median p) =
      [Gate.basisEmbed (modelFeatures median p) (List.range nQubits)] := by
  refine ⟨rfl, ?_, ?_, ?_, rfl⟩
  · intro v hv
    simp only [modelFeatures, List.mem_cons, List.not_mem_nil, or_false] at hv
    rcases hv with rfl | rfl | rfl | rfl
    · unfold isChild; split <;> simp
    · unfold pclassOne; split <;> simp
    · unfold pclassTwo; split <;> simp
    · unfold sexFemale; split <;> simp
  · unfold isChild; split <;> simp_all
  · unfold isChild; split <;> simp_all

/-- C7: no notebook cell catches an exception: when reading
`TitanicData/train.csv` fails, the data-loading error propagates unchanged
through the notebook's preparation code to the interactive user. -/
theorem load_errors_propagate (fs : String → Option (List Passenger))
    (median : ℚ) (e : String)
    (h : readCsv fs "TitanicData/train.csv" = Except.error e) :
    loadAndPrepare fs median = Except.error e := by
  unfold loadAndPrepare
  rw [h]
  rfl

/-- C7 witness: with the CSV file absent, the preparation pipeline returns
the library's `FileNotFoundError` unchanged. -/
theorem load_errors_propagate_witness :
    loadAndPrepare (fun _ => none) 0 =
      Except.error ("FileNotFoundError: " ++ "TitanicData/train.csv") :=
  load_errors_propagate (fun _ => none) 0 _ rfl

/-- C10: the label encoding `y ↦ 2y - 1` maps 0 to -1 and 1 to 1, is
injective on `{0, 1}`, is inverted by `Y ↦ (Y + 1) / 2`, and every encoded
training label of `yTrain` lies in `{-1, 1}`. -/
theorem label_encoding_roundtrip :
    encodeLabel 0 = -1 ∧ encodeLabel 1 = 1 ∧
    (∀ a b : ℚ, (a = 0 ∨ a = 1) → (b = 0 ∨ b = 1) →
      encodeLabel a = encodeLabel b → a = b) ∧
    (∀ y : ℚ, decodeLabel (encodeLabel y) = y) ∧
    (∀ rows z, z ∈ yTrain rows → z = -1 ∨ z = 1) := by
  refine ⟨by norm_num [encodeLabel], by norm_num [encodeLabel], ?_, ?_, ?_⟩
  · intro a b _ _ hab
    unfold encodeLabel at hab
    linarith
  · intro y
    unfold decodeLabel encodeLabel
    ring
  · intro rows z hz
    simp only [yTrain, List.mem_map] at hz
    obtain ⟨p, -, rfl⟩ := hz
    unfold survivedVal encodeLabel
    split <;> norm_num

/-- C8: on equal-length, non-empty inputs `squareLoss` returns the mean
squared error `(1/n) * Σ_i (labels_i - predictions_i)^2`; on an empty
`labels` it divides by zero and has no result. -/
theorem squareLoss_is_mse (labels predictions : List ℚ)
    (hlen : labels.length = predictions.length) (hpos : 0 < labels.length) :
    squareLoss labels predictions =
      some ((1 / (labels.length : ℚ)) *
        ∑ i ∈ Finset.range labels.length,
          (labels.getD i 0 - predictions.getD i 0) ^ 2) ∧
    ∀ P, squareLoss [] P = none := by
  constructor
  · simp only [squareLoss]
    rw [if_neg (by omega)]
    congr 1
    rw [foldl_add_map (fun lp => (lp.1 - lp.2) ^ 2), zero_add,
      zip_map_sum (fun a b => (a - b) ^ 2) labels predictions hlen]
    ring
  · intro P; rfl

/-- C8 witness: the mean squared error of labels `[1, 2]` against
predictions `[0, 0]`. -/
theorem squareLoss_is_mse_witness :
    squareLoss [(1 : ℚ), 2] [0, 0] =
      some ((1 / (([(1 : ℚ), 2] : List ℚ).length : ℚ)) *
        ∑ i ∈ Finset.range ([(1 : ℚ), 2] : List ℚ).length,
          (([(1 : ℚ), 2] : List ℚ).getD i 0 - ([(0 : ℚ), 0] : List ℚ).getD i 0) ^ 2) ∧
    ∀ P, squareLoss [] P = none :=
  squareLoss_is_mse [1, 2] [0, 0] rfl (by decide)

/-- C9: on equal-length, non-empty inputs `accuracy` returns `k / n` where
`k` is the number of indices at which label and prediction differ by less
than `1e-5` and `n` is the common length, and that value lies in `[0, 1]`. -/
theorem accuracy_is_fraction (labels predictions : List ℚ)
    (hlen : labels.length = predictions.length) (hpos : 0 < labels.length) :
    accuracy labels predictions =
      some (((((Finset.range labels.length).filter fun i =>
          |labels.getD i 0 - predictions.getD i 0| < (1 / 100000 : ℚ)).card : ℚ))
        / (labels.length : ℚ)) ∧
    0 ≤ ((((Finset.range labels.length).filter fun i =>
          |labels.getD i 0 - predictions.getD i 0| < (1 / 100000 : ℚ)).card : ℚ))
        / (labels.length : ℚ) ∧
    ((((Finset.range labels.length).filter fun i =>
          |labels.getD i 0 - predictions.getD i 0| < (1 / 100000 : ℚ)).card : ℚ))
        / (labels.length : ℚ) ≤ 1 := by
  have hn : (0 : ℚ) < (labels.length : ℚ) := by exact_mod_cast hpos
  have hcard : ((((Finset.range labels.length).filter fun i =>
      |labels.getD i 0 - predictions.getD i 0| < (1 / 100000 : ℚ)).card : ℚ)) =
      ∑ i ∈ Finset.range labels.length,
        (if |labels.getD i 0 - predictions.getD i 0| < (1 / 100000 : ℚ)
          then (1 : ℚ) else 0) := by
    rw [Finset.card_filter]
    push_cast
    rfl
  refine ⟨?_, by positivity, ?_⟩
  · simp only [accuracy]
    rw [if_neg (by omega)]
    congr 1
    have hbody : (fun (acc : ℚ) (lp : ℚ × ℚ) =>
        if |lp.1 - lp.2| < 1 / 100000 then acc + 1 else acc) =
        fun acc lp => acc + (if |lp.1 - lp.2| < (1 / 100000 : ℚ) then (1 : ℚ) else 0) := by
      funext acc lp
      by_cases h : |lp.1 - lp.2| < (1 / 100000 : ℚ)
      · rw [if_pos h, if_pos h]
      · rw [if_neg h, if_neg h, add_zero]
    rw [hbody,
      foldl_add_map (fun lp => if |lp.1 - lp.2| < (1 / 100000 : ℚ) then (1 : ℚ) else 0),
      zero_add,
      zip_map_sum (fun a b => if |a - b| < (1 / 100000 : ℚ) then (1 : ℚ) else 0)
        labels predictions hlen, hcard]
  · have hle : (((Finset.range labels.length).filter fun i =>
        |labels.getD i 0 - predictions.getD i 0| < (1 / 100000 : ℚ)).card)
        ≤ labels.length := by
      simpa using Finset.card_filter_le (Finset.range labels.length)
        (fun i => |labels.getD i 0 - predictions.getD i 0| < (1 / 100000 : ℚ))
    rw [div_le_one hn]
    exact_mod_cast hle

/-- C9 witness: the accuracy of labels `[0, 1]` against predictions
`[0, 3]`. -/
theorem accuracy_is_fraction_witness :
    accuracy [(0 : ℚ), 1] [0, 3] =
      some (((((Finset.range ([(0 : ℚ), 1] : List ℚ).length).filter fun i =>
          |([(0 : ℚ), 1] : List ℚ).getD i 0 - ([(0 : ℚ), 3] : List ℚ).getD i 0|
            < (1 / 100000 : ℚ)).card : ℚ))
        / (([(0 : ℚ), 1] : List ℚ).length : ℚ)) ∧
    0 ≤ ((((Finset.range ([(0 : ℚ), 1] : List ℚ).length).filter fun i =>
          |([(0 : ℚ), 1] : List ℚ).getD i 0 - ([(0 : ℚ), 3] : List ℚ).getD i 0|
            < (1 / 100000 : ℚ)).card : ℚ))
        / (([(0 : ℚ), 1] : List ℚ).length : ℚ) ∧
    ((((Finset.range ([(0 : ℚ), 1] : List ℚ).length).filter fun i =>
          |([(0 : ℚ), 1] : List ℚ).getD i 0 - ([(0 : ℚ), 3] : List ℚ).getD i 0|
            < (1 / 100000 : ℚ)).card : ℚ))
        / (([(0 : ℚ), 1] : List ℚ).length : ℚ) ≤ 1 :=
  accuracy_is_fraction [0, 1] [0, 3] rfl (by decide)
